import Mathlib

/-!
Verification of the event-monitoring core declared in
`simpleperf/event_selection_set.h` (class `EventSelectionSet` and its
supporting data model).  The header declares the data model and the
operations; the member functions whose bodies are inline in the header
are embedded directly from the source, while the behaviours whose
implementation file is not part of the sources at hand are modelled
from the specification document and marked as such in their doc
comments.
-/

set_option autoImplicit false

namespace EventSelectionSetSpec

/-- Counter handle for one (event, target, cpu) combination.  The C++
`EventFd` is an opaque external resource; we model the data the claims
need: the target thread id, the cpu, the aggregated counter value the
kernel would report, and whether a read syscall on the handle succeeds. -/
structure EventFd where
  tid : Int
  cpu : Int
  count : Nat
  readOk : Bool
deriving DecidableEq, Repr

/-- Source `struct CounterInfo { pid_t tid; int cpu; PerfCounter counter; }`;
the opaque `PerfCounter` is modelled by its aggregated value. -/
structure CounterInfo where
  tid : Int
  cpu : Int
  counter : Nat
deriving DecidableEq, Repr

/-- Resolved event descriptor plus modifiers (source
`EventTypeAndModifier`, an opaque value type produced by the external
event-name resolver); we keep the name and the sample-record field
bitmask the event requests by default. -/
structure EventTypeAndModifier where
  name : String
  default_sample_type : Nat
deriving DecidableEq, Repr

/-- Kernel-facing configuration record (source `perf_event_attr`),
restricted to the fields the claims mention. -/
structure PerfEventAttr where
  sample_type : Nat
  branch_sample_type : Nat
deriving DecidableEq, Repr

/-- Source `struct EventSelection`: identity, resolved event type,
kernel attribute, owned counter handles, and counters salvaged from
handles closed on cpu hotplug. -/
structure EventSelection where
  group_id : Nat
  selection_id : Nat
  event_type_modifier : EventTypeAndModifier
  event_attr : PerfEventAttr
  event_fds : List EventFd
  hotplugged_counters : List CounterInfo
deriving DecidableEq, Repr

/-- Source `typedef std::vector<EventSelection> EventSelectionGroup`. -/
abbrev EventSelectionGroup := List EventSelection

/-- Source `struct CountersInfo { const EventSelection* selection;
std::vector<CounterInfo> counters; }`; the non-owning back pointer is
modelled by the selection value it refers to. -/
structure CountersInfo where
  selection : EventSelection
  counters : List CounterInfo
deriving DecidableEq, Repr

/-- State of the orchestrator class `EventSelectionSet`: the groups,
the monitored process and thread id sets (source members `groups_`,
`processes_`, `threads_`), plus the next globally unique selection id
(the counter behind `BuildAndCheckEventSelection`, modelled from the
spec since the implementation file is not among the sources). -/
structure EventSelectionSet where
  for_stat_cmd : Bool
  groups : List EventSelectionGroup
  processes : Finset Int
  threads : Finset Int
  next_selection_id : Nat

/-- Source constructor `EventSelectionSet(bool for_stat_cmd)`: all
containers start empty. -/
def EventSelectionSet.mk0 (for_stat_cmd : Bool) : EventSelectionSet :=
  { for_stat_cmd := for_stat_cmd
    groups := []
    processes := ∅
    threads := ∅
    next_selection_id := 0 }

/-- Source `AddMonitoredProcesses`: inserts the given pid range into
`processes_` (a `std::set`, so insertion is set union). -/
def AddMonitoredProcesses (s : EventSelectionSet) (ps : Finset Int) :
    EventSelectionSet :=
  { s with processes := s.processes ∪ ps }

/-- Source `AddMonitoredThreads`: inserts the given tid range into
`threads_`. -/
def AddMonitoredThreads (s : EventSelectionSet) (ts : Finset Int) :
    EventSelectionSet :=
  { s with threads := s.threads ∪ ts }

/-- Source `GetMonitoredProcesses`. -/
def GetMonitoredProcesses (s : EventSelectionSet) : Finset Int :=
  s.processes

/-- Source `GetMonitoredThreads`. -/
def GetMonitoredThreads (s : EventSelectionSet) : Finset Int :=
  s.threads

/-- Source `HasMonitoredTarget`:
`return !processes_.empty() || !threads_.empty();`. -/
def HasMonitoredTarget (s : EventSelectionSet) : Bool :=
  !decide (s.processes = ∅) || !decide (s.threads = ∅)

/-- Modelled from the spec: `BuildAndCheckEventSelection` (implementation
file absent from the sources) resolves the event name through the
external resolver, validates measurability (both folded into the
`resolve` oracle, which returns `none` on an unknown or unsupported
name), and assigns the next globally unique selection id together with
the owning group's id. -/
def BuildAndCheckEventSelection (resolve : String → Option EventTypeAndModifier)
    (gid sid : Nat) (event_name : String) : Option EventSelection :=
  (resolve event_name).map fun et =>
    { group_id := gid
      selection_id := sid
      event_type_modifier := et
      event_attr := { sample_type := et.default_sample_type, branch_sample_type := 0 }
      event_fds := []
      hotplugged_counters := [] }

/-- Modelled from the spec: `AddEventType(name)` (implementation file
absent) resolves the name, builds one selection, wraps it in a new
single-element group and appends it; fails without changing the set if
resolution fails. -/
def AddEventType (resolve : String → Option EventTypeAndModifier)
    (s : EventSelectionSet) (event_name : String) : Bool × EventSelectionSet :=
  match BuildAndCheckEventSelection resolve s.groups.length s.next_selection_id
      event_name with
  | none => (false, s)
  | some sel =>
    (true, { s with
             groups := s.groups ++ [[sel]]
             next_selection_id := s.next_selection_id + 1 })

/-- Modelled from the spec: the member-building loop of
`AddEventGroup`, resolving each name in order into one selection with
consecutive selection ids; `none` as soon as any name fails. -/
def buildGroupSelections (resolve : String → Option EventTypeAndModifier)
    (gid : Nat) : Nat → List String → Option EventSelectionGroup
  | _, [] => some []
  | sid, n :: rest =>
    match BuildAndCheckEventSelection resolve gid sid n with
    | none => none
    | some sel => (buildGroupSelections resolve gid (sid + 1) rest).map (sel :: ·)

/-- Modelled from the spec: `AddEventGroup(names)` (implementation file
absent) resolves each name in order into one selection each, packs them
into one new group (first member is the group leader) and appends it;
fails atomically, leaving the set unchanged, if any name fails to
resolve. -/
def AddEventGroup (resolve : String → Option EventTypeAndModifier)
    (s : EventSelectionSet) (event_names : List String) :
    Bool × EventSelectionSet :=
  match buildGroupSelections resolve s.groups.length s.next_selection_id
      event_names with
  | none => (false, s)
  | some g =>
    (true, { s with
             groups := s.groups ++ [g]
             next_selection_id := s.next_selection_id + event_names.length })

/-- One call of the group-construction interface. -/
inductive AddCall where
  | addType (event_name : String)
  | addGroup (event_names : List String)

/-- State reached after one `AddEventType`/`AddEventGroup` call
(ignoring the returned success flag, as the state is unchanged on
failure). -/
def applyCall (resolve : String → Option EventTypeAndModifier)
    (s : EventSelectionSet) : AddCall → EventSelectionSet
  | .addType n => (AddEventType resolve s n).2
  | .addGroup ns => (AddEventGroup resolve s ns).2

/-- State reached after a sequence of `AddEventType`/`AddEventGroup`
calls. -/
def applyCalls (resolve : String → Option EventTypeAndModifier)
    (s : EventSelectionSet) (cs : List AddCall) : EventSelectionSet :=
  cs.foldl (applyCall resolve) s

/-- Selection ids of every selection in the set, in group order. -/
def allSelectionIds (s : EventSelectionSet) : List Nat :=
  s.groups.flatten.map (·.selection_id)

/-- Well-formedness invariant: selection ids are pairwise distinct and
below the next-id counter, and each selection's `group_id` is the
0-based position of its owning group. -/
def SelWf (s : EventSelectionSet) : Prop :=
  (allSelectionIds s).Nodup ∧
  (∀ id ∈ allSelectionIds s, id < s.next_selection_id) ∧
  (∀ gi : Nat, ∀ g, s.groups[gi]? = some g → ∀ sel ∈ g, sel.group_id = gi)

theorem buildGroupSelections_spec (resolve : String → Option EventTypeAndModifier)
    (gid : Nat) :
    ∀ (ns : List String) (sid : Nat) (g : EventSelectionGroup),
    buildGroupSelections resolve gid sid ns = some g →
    g.map (·.selection_id) = List.range' sid ns.length ∧
    (∀ sel ∈ g, sel.group_id = gid) ∧
    g.map (fun sel => some sel.event_type_modifier) = ns.map resolve := by
  intro ns
  induction ns with
  | nil =>
    intro sid g hg
    simp only [buildGroupSelections] at hg
    cases hg
    simp
  | cons n rest ih =>
    intro sid g hg
    simp only [buildGroupSelections] at hg
    cases hre : BuildAndCheckEventSelection resolve gid sid n with
    | none => rw [hre] at hg; cases hg
    | some sel =>
      rw [hre] at hg
      cases hrest : buildGroupSelections resolve gid (sid + 1) rest with
      | none => rw [hrest] at hg; cases hg
      | some g' =>
        rw [hrest] at hg
        simp only [Option.map_some] at hg
        cases hg
        obtain ⟨hids, hgid, hty⟩ := ih (sid + 1) g' hrest
        simp only [BuildAndCheckEventSelection] at hre
        cases hrn : resolve n with
        | none => rw [hrn] at hre; cases hre
        | some et =>
          rw [hrn] at hre
          simp only [Option.map_some', Option.some_inj] at hre
          subst hre
          refine ⟨?_, ?_, ?_⟩
          · simp [hids, List.range'_succ]
          · intro sel hsel
            rcases List.mem_cons.mp hsel with h | h
            · subst h; rfl
            · exact hgid sel h
          · simp [hty, hrn]

theorem selWf_append_group (s : EventSelectionSet) (g : EventSelectionGroup)
    (k : Nat) (hw : SelWf s)
    (hids : g.map (·.selection_id) = List.range' s.next_selection_id k)
    (hgid : ∀ sel ∈ g, sel.group_id = s.groups.length) :
    SelWf { s with
            groups := s.groups ++ [g]
            next_selection_id := s.next_selection_id + k } := by
  obtain ⟨hnd, hlt, hpos⟩ := hw
  have hall : allSelectionIds { s with
      groups := s.groups ++ [g]
      next_selection_id := s.next_selection_id + k }
      = allSelectionIds s ++ g.map (·.selection_id) := by
    simp [allSelectionIds]
  refine ⟨?_, ?_, ?_⟩
  · rw [hall, List.nodup_append]
    refine ⟨hnd, ?_, ?_⟩
    · rw [hids]; exact List.nodup_range' _ _
    · intro a ha hb
      have ha' := hlt a ha
      rw [hids] at hb
      rcases List.mem_range'.mp hb with ⟨i, _, hbi⟩
      omega
  · intro id hid
    rw [hall] at hid
    show id < s.next_selection_id + k
    rcases List.mem_append.mp hid with h | h
    · have := hlt id h; omega
    · rw [hids] at h
      rcases List.mem_range'.mp h with ⟨i, hi, hbi⟩
      omega
  · intro gi gr hgr sel hsel
    simp only at hgr
    by_cases hcase : gi < s.groups.length
    · rw [List.getElem?_append_left hcase] at hgr
      exact hpos gi gr hgr sel hsel
    · rw [List.getElem?_append_right (Nat.le_of_not_lt hcase)] at hgr
      rcases Nat.lt_or_ge (gi - s.groups.length) 1 with hd | hd
      · have h0 : gi - s.groups.length = 0 := by omega
        rw [h0] at hgr
        simp only [List.getElem?_cons_zero, Option.some_inj] at hgr
        subst hgr
        have := hgid sel hsel
        omega
      · have : ([g] : List EventSelectionGroup)[gi - s.groups.length]? = none := by
          apply List.getElem?_eq_none
          simpa using hd
        rw [this] at hgr
        cases hgr

theorem selWf_applyCall (resolve : String → Option EventTypeAndModifier)
    (s : EventSelectionSet) (c : AddCall) (hw : SelWf s) :
    SelWf (applyCall resolve s c) := by
  cases c with
  | addType n =>
    simp only [applyCall, AddEventType]
    cases hb : BuildAndCheckEventSelection resolve s.groups.length
        s.next_selection_id n with
    | none => exact hw
    | some sel =>
      simp only
      have h1 : ([sel].map (·.selection_id)) = List.range' s.next_selection_id 1 := by
        simp only [BuildAndCheckEventSelection] at hb
        cases hrn : resolve n with
        | none => rw [hrn] at hb; cases hb
        | some et =>
          rw [hrn] at hb
          simp only [Option.map_some', Option.some_inj] at hb
          subst hb
          simp [List.range']
      have h2 : ∀ x ∈ [sel], x.group_id = s.groups.length := by
        intro x hx
        rcases List.mem_singleton.mp hx with rfl
        simp only [BuildAndCheckEventSelection] at hb
        cases hrn : resolve n with
        | none => rw [hrn] at hb; cases hb
        | some et =>
          rw [hrn] at hb
          simp only [Option.map_some', Option.some_inj] at hb
          subst hb
          rfl
      exact selWf_append_group s [sel] 1 hw h1 h2
  | addGroup ns =>
    simp only [applyCall, AddEventGroup]
    cases hb : buildGroupSelections resolve s.groups.length
        s.next_selection_id ns with
    | none => exact hw
    | some g =>
      simp only
      obtain ⟨hids, hgid, _⟩ :=
        buildGroupSelections_spec resolve s.groups.length ns
          s.next_selection_id g hb
      exact selWf_append_group s g ns.length hw hids hgid

theorem selWf_applyCalls (resolve : String → Option EventTypeAndModifier)
    (cs : List AddCall) (s : EventSelectionSet) (hw : SelWf s) :
    SelWf (applyCalls resolve s cs) := by
  induction cs generalizing s with
  | nil => exact hw
  | cons c rest ih =>
    exact ih (applyCall resolve s c) (selWf_applyCall resolve s c hw)

theorem selWf_mk0 (b : Bool) : SelWf (EventSelectionSet.mk0 b) := by
  refine ⟨?_, ?_, ?_⟩
  · simp [allSelectionIds, EventSelectionSet.mk0]
  · simp [allSelectionIds, EventSelectionSet.mk0]
  · intro gi g hg
    simp [EventSelectionSet.mk0] at hg

/-- C1: for every sequence of `AddEventType` and `AddEventGroup` calls
on a freshly constructed `EventSelectionSet`, the assigned
`selection_id` values are pairwise distinct across the whole set, and
each selection's `group_id` equals the 0-based position of its owning
group in the groups vector. -/
theorem selection_ids_distinct_and_group_ids_positional
    (resolve : String → Option EventTypeAndModifier) (b : Bool)
    (calls : List AddCall) :
    ((applyCalls resolve (EventSelectionSet.mk0 b) calls).groups.flatten.map
        (·.selection_id)).Nodup ∧
    (∀ gi : Nat, ∀ g,
      (applyCalls resolve (EventSelectionSet.mk0 b) calls).groups[gi]? = some g →
      ∀ sel ∈ g, sel.group_id = gi) := by
  obtain ⟨h1, _, h3⟩ := selWf_applyCalls resolve calls _ (selWf_mk0 b)
  exact ⟨h1, h3⟩

theorem buildGroupSelections_eq_none_iff
    (resolve : String → Option EventTypeAndModifier) (gid : Nat) :
    ∀ (ns : List String) (sid : Nat),
    buildGroupSelections resolve gid sid ns = none ↔
      ∃ n ∈ ns, resolve n = none := by
  intro ns
  induction ns with
  | nil => intro sid; simp [buildGroupSelections]
  | cons n rest ih =>
    intro sid
    simp only [buildGroupSelections]
    cases hrn : resolve n with
    | none =>
      simp only [BuildAndCheckEventSelection, hrn, Option.map_none']
      exact ⟨fun _ => ⟨n, List.mem_cons_self n rest, hrn⟩, fun _ => trivial⟩
    | some et =>
      simp only [BuildAndCheckEventSelection, hrn, Option.map_some']
      rw [Option.map_eq_none']
      rw [ih (sid + 1)]
      constructor
      · rintro ⟨m, hm, hmn⟩
        exact ⟨m, List.mem_cons_of_mem n hm, hmn⟩
      · rintro ⟨m, hm, hmn⟩
        rcases List.mem_cons.mp hm with rfl | hm'
        · rw [hrn] at hmn; cases hmn
        · exact ⟨m, hm', hmn⟩

/-- C9: `AddEventGroup` is atomic: if any name in the list fails to
resolve, the groups are unchanged and the call fails; on success, one
new group is appended containing one selection per name in the given
order (so its first member, the resolution of the first name, is the
group leader), each tagged with the new group's position. -/
theorem add_event_group_atomic
    (resolve : String → Option EventTypeAndModifier)
    (s : EventSelectionSet) (event_names : List String) :
    ((∃ n ∈ event_names, resolve n = none) →
        AddEventGroup resolve s event_names = (false, s)) ∧
    ((∀ n ∈ event_names, resolve n ≠ none) →
      ∃ g : EventSelectionGroup,
        AddEventGroup resolve s event_names =
          (true, { s with
                   groups := s.groups ++ [g]
                   next_selection_id :=
                     s.next_selection_id + event_names.length }) ∧
        g.map (fun sel => some sel.event_type_modifier) =
          event_names.map resolve ∧
        ∀ sel ∈ g, sel.group_id = s.groups.length) := by
  constructor
  · intro hex
    have hnone : buildGroupSelections resolve s.groups.length
        s.next_selection_id event_names = none :=
      (buildGroupSelections_eq_none_iff resolve s.groups.length event_names
        s.next_selection_id).mpr hex
    simp only [AddEventGroup]
    rw [hnone]
  · intro hres
    cases hb : buildGroupSelections resolve s.groups.length
        s.next_selection_id event_names with
    | none =>
      rcases (buildGroupSelections_eq_none_iff resolve s.groups.length
        event_names s.next_selection_id).mp hb with ⟨n, hn, hrn⟩
      exact absurd hrn (hres n hn)
    | some g =>
      obtain ⟨_, hgid, hty⟩ := buildGroupSelections_spec resolve
        s.groups.length event_names s.next_selection_id g hb
      refine ⟨g, ?_, hty, hgid⟩
      simp only [AddEventGroup]
      rw [hb]

/-- Concrete resolver used for the closed instantiations: knows two
event names, rejects everything else. -/
def resolveDemo : String → Option EventTypeAndModifier := fun n =>
  if n = "cpu-cycles" then
    some { name := "cpu-cycles", default_sample_type := 1 }
  else if n = "instructions" then
    some { name := "instructions", default_sample_type := 2 }
  else none

/-- Concrete call sequence used for the closed instantiation of C1. -/
def callsDemo : List AddCall :=
  [.addType "cpu-cycles", .addGroup ["instructions", "cpu-cycles"]]

/-- Group at position 1 after running `callsDemo`. -/
def grpDemo : EventSelectionGroup :=
  ((applyCalls resolveDemo (EventSelectionSet.mk0 true) callsDemo).groups[1]?).getD []

/-- Closed instantiation of C1 on a concrete call sequence. -/
theorem selection_ids_distinct_and_group_ids_positional_witness :
    ((applyCalls resolveDemo (EventSelectionSet.mk0 true) callsDemo).groups.flatten.map
        (·.selection_id)).Nodup ∧
    (∀ sel ∈ grpDemo, sel.group_id = 1) := by
  constructor
  · exact (selection_ids_distinct_and_group_ids_positional resolveDemo true
      callsDemo).1
  · exact (selection_ids_distinct_and_group_ids_positional resolveDemo true
      callsDemo).2 1 grpDemo (by decide)

/-- Closed instantiation of C9: a failing name leaves the set
unchanged, a fully resolving list appends exactly one new group. -/
theorem add_event_group_atomic_witness :
    AddEventGroup resolveDemo (EventSelectionSet.mk0 true) ["bogus"] =
      (false, EventSelectionSet.mk0 true) ∧
    ∃ g : EventSelectionGroup,
      AddEventGroup resolveDemo (EventSelectionSet.mk0 true)
          ["cpu-cycles", "instructions"] =
        (true, { EventSelectionSet.mk0 true with
                 groups := (EventSelectionSet.mk0 true).groups ++ [g]
                 next_selection_id :=
                   (EventSelectionSet.mk0 true).next_selection_id +
                     (["cpu-cycles", "instructions"] : List String).length }) ∧
      g.map (fun sel => some sel.event_type_modifier) =
        (["cpu-cycles", "instructions"] : List String).map resolveDemo ∧
      ∀ sel ∈ g, sel.group_id = (EventSelectionSet.mk0 true).groups.length := by
  constructor
  · exact (add_event_group_atomic resolveDemo (EventSelectionSet.mk0 true)
      ["bogus"]).1 ⟨"bogus", by simp, by simp [resolveDemo]⟩
  · exact (add_event_group_atomic resolveDemo (EventSelectionSet.mk0 true)
      ["cpu-cycles", "instructions"]).2 (by intro n hn; fin_cases hn <;> simp [resolveDemo])

/-- One action on the external counter-handle resource during a bulk
open call, identified by its (selection id, target tid, cpu) triple. -/
inductive FdAction where
  | openFd (t : Nat × Int × Int)
  | closeFd (t : Nat × Int × Int)
deriving DecidableEq, Repr

/-- The (selection, target, cpu) triples `OpenEventFiles` attempts, in
group order, then target order, then cpu order. -/
def openTriples (s : EventSelectionSet) (threads cpus : List Int) :
    List (Nat × Int × Int) :=
  s.groups.flatten.flatMap fun sel =>
    threads.flatMap fun tid =>
      cpus.map fun cpu => (sel.selection_id, tid, cpu)

/-- Modelled from the spec: `OpenEventFiles(on_cpus)` (implementation
file absent).  For every (selection, target, cpu) triple it opens one
counter handle through the external resource (`openOk` says whether
the open syscall succeeds, `mkFd` is the handle it yields); on any
failure every handle opened so far in the call is closed again, the
state is left unchanged and the call fails.  The result carries the
success flag, the state after the call and the trace of open/close
actions performed on the external resource. -/
def OpenEventFiles (openOk : Nat × Int × Int → Bool)
    (mkFd : Nat × Int × Int → EventFd) (s : EventSelectionSet)
    (threads cpus : List Int) :
    Bool × EventSelectionSet × List FdAction :=
  let ts := openTriples s threads cpus
  if ts.all openOk then
    (true,
     { s with groups := s.groups.map (List.map fun sel =>
         { sel with event_fds := sel.event_fds ++
             (threads.flatMap fun tid => cpus.map fun cpu =>
               mkFd (sel.selection_id, tid, cpu)) }) },
     ts.map FdAction.openFd)
  else
    let opened := ts.takeWhile openOk
    (false, s, opened.map FdAction.openFd ++ opened.reverse.map FdAction.closeFd)

/-- Triples of the handles opened during a call, read off its trace. -/
def openedTriples (tr : List FdAction) : List (Nat × Int × Int) :=
  tr.filterMap fun a => match a with
    | .openFd t => some t
    | .closeFd _ => none

/-- Triples of the handles closed during a call, read off its trace. -/
def closedTriples (tr : List FdAction) : List (Nat × Int × Int) :=
  tr.filterMap fun a => match a with
    | .openFd _ => none
    | .closeFd t => some t

theorem openedTriples_append (a b : List FdAction) :
    openedTriples (a ++ b) = openedTriples a ++ openedTriples b := by
  simp [openedTriples, List.filterMap_append]

theorem closedTriples_append (a b : List FdAction) :
    closedTriples (a ++ b) = closedTriples a ++ closedTriples b := by
  simp [closedTriples, List.filterMap_append]

theorem openedTriples_map_openFd (l : List (Nat × Int × Int)) :
    openedTriples (l.map FdAction.openFd) = l := by
  induction l with
  | nil => rfl
  | cons t ts ih => simpa [openedTriples, List.filterMap_cons] using ih

theorem openedTriples_map_closeFd (l : List (Nat × Int × Int)) :
    openedTriples (l.map FdAction.closeFd) = [] := by
  induction l with
  | nil => rfl
  | cons t ts ih => simp [openedTriples, List.filterMap_cons, ih]

theorem closedTriples_map_openFd (l : List (Nat × Int × Int)) :
    closedTriples (l.map FdAction.openFd) = [] := by
  induction l with
  | nil => rfl
  | cons t ts ih => simp [closedTriples, List.filterMap_cons, ih]

theorem closedTriples_map_closeFd (l : List (Nat × Int × Int)) :
    closedTriples (l.map FdAction.closeFd) = l := by
  induction l with
  | nil => rfl
  | cons t ts ih => simpa [closedTriples, List.filterMap_cons] using ih

/-- C2: `OpenEventFiles` is atomic: whenever opening some (selection,
target, cpu) handle fails, the state is unchanged by the call and every
handle opened earlier within the call has been closed in its trace
before the call returns, so zero handles from that call remain open
afterward. -/
theorem open_event_files_atomic (openOk : Nat × Int × Int → Bool)
    (mkFd : Nat × Int × Int → EventFd) (s : EventSelectionSet)
    (threads cpus : List Int)
    (hfail : (OpenEventFiles openOk mkFd s threads cpus).1 = false) :
    (OpenEventFiles openOk mkFd s threads cpus).2.1 = s ∧
    (closedTriples (OpenEventFiles openOk mkFd s threads cpus).2.2).reverse =
      openedTriples (OpenEventFiles openOk mkFd s threads cpus).2.2 := by
  by_cases hall : (openTriples s threads cpus).all openOk
  · exfalso
    simp only [OpenEventFiles, hall, if_true] at hfail
    cases hfail
  · constructor
    · simp [OpenEventFiles, hall]
    · have h2 : (OpenEventFiles openOk mkFd s threads cpus).2.2 =
        ((openTriples s threads cpus).takeWhile openOk).map FdAction.openFd ++
          ((openTriples s threads cpus).takeWhile openOk).reverse.map
            FdAction.closeFd := by
        simp [OpenEventFiles, hall]
      rw [h2, closedTriples_append, openedTriples_append,
        closedTriples_map_openFd, closedTriples_map_closeFd,
        openedTriples_map_openFd, openedTriples_map_closeFd]
      simp

/-- Success predicate for the closed instantiation of C2: opening
succeeds only for target tid 1. -/
def openOkDemo : Nat × Int × Int → Bool := fun t => decide (t.2.1 = 1)

/-- Handle factory for the closed instantiation of C2. -/
def mkFdDemo : Nat × Int × Int → EventFd := fun t =>
  { tid := t.2.1, cpu := t.2.2, count := 0, readOk := true }

/-- Set with one selection, used for the closed instantiation of C2. -/
def sDemo2 : EventSelectionSet :=
  (AddEventType resolveDemo (EventSelectionSet.mk0 true) "cpu-cycles").2

/-- Closed instantiation of C2: a failing target leaves the state
unchanged and the trace closes exactly the opened handles. -/
theorem open_event_files_atomic_witness :
    (OpenEventFiles openOkDemo mkFdDemo sDemo2 [1, 2] [0]).2.1 = sDemo2 ∧
    (closedTriples (OpenEventFiles openOkDemo mkFdDemo sDemo2 [1, 2] [0]).2.2).reverse =
      openedTriples (OpenEventFiles openOkDemo mkFdDemo sDemo2 [1, 2] [0]).2.2 :=
  open_event_files_atomic openOkDemo mkFdDemo sDemo2 [1, 2] [0] (by decide)

/-- Modelled from the spec: the size-degradation loop of the public
`MmapEventFiles(min_mmap_pages, max_mmap_pages)` over the private
`MmapEventFiles(mmap_pages, report_error)` overload (implementation
file absent).  `mmapOk pages` says whether mapping a ring buffer of
`pages` pages for every required handle succeeds; the loop starts at
the requested maximum and halves the size (never dropping below the
minimum) on each allocation failure, stopping at the first size that
maps. -/
def mmapLoop (mmapOk : Nat → Bool) (min_pages cur : Nat) : Option Nat :=
  if mmapOk cur = true then some cur
  else if cur ≤ min_pages then none
  else mmapLoop mmapOk min_pages (max min_pages (cur / 2))
termination_by cur
decreasing_by
  refine Nat.max_lt.mpr ⟨by omega, ?_⟩
  exact Nat.div_lt_self (by omega) (by omega)

/-- The decreasing chain of page counts the loop attempts when every
attempt fails: the requested maximum, then halves clamped at the
minimum. -/
def mmapSizeChain (min_pages cur : Nat) : List Nat :=
  if cur ≤ min_pages then [cur]
  else cur :: mmapSizeChain min_pages (max min_pages (cur / 2))
termination_by cur
decreasing_by
  refine Nat.max_lt.mpr ⟨by omega, ?_⟩
  exact Nat.div_lt_self (by omega) (by omega)

/-- Modelled from the spec: the public `MmapEventFiles(min, max)`
succeeds exactly when the degradation loop finds a mappable size. -/
def MmapEventFiles (mmapOk : Nat → Bool)
    (min_mmap_pages max_mmap_pages : Nat) : Bool :=
  (mmapLoop mmapOk min_mmap_pages max_mmap_pages).isSome

theorem min_mem_mmapSizeChain (minP : Nat) :
    ∀ cur, minP ≤ cur → minP ∈ mmapSizeChain minP cur := by
  intro cur
  induction cur using Nat.strong_induction_on with
  | _ cur ih =>
    intro hle
    rw [mmapSizeChain]
    by_cases h : cur ≤ minP
    · have heq : cur = minP := Nat.le_antisymm h hle
      rw [if_pos h, heq]
      exact List.mem_singleton_self minP
    · rw [if_neg h]
      refine List.mem_cons_of_mem _ ?_
      have hlt : max minP (cur / 2) < cur := by
        refine Nat.max_lt.mpr ⟨by omega, ?_⟩
        exact Nat.div_lt_self (by omega) (by omega)
      exact ih _ hlt (Nat.le_max_left _ _)

theorem mmapLoop_none_iff (mmapOk : Nat → Bool) (minP : Nat) :
    ∀ cur, mmapLoop mmapOk minP cur = none ↔
      ∀ p ∈ mmapSizeChain minP cur, mmapOk p = false := by
  intro cur
  induction cur using Nat.strong_induction_on with
  | _ cur ih =>
    rw [mmapLoop, mmapSizeChain]
    by_cases h1 : mmapOk cur = true
    · by_cases h2 : cur ≤ minP <;> simp [h1, h2]
    · by_cases h2 : cur ≤ minP
      · simp [h1, h2, Bool.not_eq_true] at *
      · rw [if_neg h1, if_neg h2, if_neg h2]
        have hlt : max minP (cur / 2) < cur := by
          refine Nat.max_lt.mpr ⟨by omega, ?_⟩
          exact Nat.div_lt_self (by omega) (by omega)
        rw [ih _ hlt]
        simp [Bool.not_eq_true] at h1
        simp [h1]

theorem mmapLoop_some_spec (mmapOk : Nat → Bool) (minP : Nat) :
    ∀ cur p, mmapLoop mmapOk minP cur = some p →
      mmapOk p = true ∧ (minP ≤ cur → minP ≤ p) ∧ p ≤ cur := by
  intro cur
  induction cur using Nat.strong_induction_on with
  | _ cur ih =>
    intro p hp
    rw [mmapLoop] at hp
    by_cases h1 : mmapOk cur = true
    · rw [if_pos h1] at hp
      cases hp
      exact ⟨h1, fun h => h, Nat.le_refl _⟩
    · rw [if_neg h1] at hp
      by_cases h2 : cur ≤ minP
      · rw [if_pos h2] at hp; cases hp
      · rw [if_neg h2] at hp
        have hlt : max minP (cur / 2) < cur := by
          refine Nat.max_lt.mpr ⟨by omega, ?_⟩
          exact Nat.div_lt_self (by omega) (by omega)
        obtain ⟨ha, hb, hc⟩ := ih _ hlt p hp
        exact ⟨ha, fun _ => hb (Nat.le_max_left _ _),
          Nat.le_trans hc (Nat.le_of_lt hlt)⟩

/-- C4: for all page bounds `min_pages ≤ max_pages`, `MmapEventFiles`
attempts sizes starting at `max_pages` and halving on allocation
failure down to `min_pages`: the call fails exactly when every size in
the halving chain fails, the chain contains `min_pages` (so failure
implies even `min_pages` cannot be mapped), and a successful loop ends
at a mappable size between the bounds. -/
theorem mmap_event_files_halves_down_to_min (mmapOk : Nat → Bool)
    (min_pages max_pages : Nat) (hle : min_pages ≤ max_pages) :
    (MmapEventFiles mmapOk min_pages max_pages = false ↔
        ∀ p ∈ mmapSizeChain min_pages max_pages, mmapOk p = false) ∧
    min_pages ∈ mmapSizeChain min_pages max_pages ∧
    (MmapEventFiles mmapOk min_pages max_pages = false →
        mmapOk min_pages = false) ∧
    (∀ p, mmapLoop mmapOk min_pages max_pages = some p →
        mmapOk p = true ∧ min_pages ≤ p ∧ p ≤ max_pages) := by
  have hiff : MmapEventFiles mmapOk min_pages max_pages = false ↔
      mmapLoop mmapOk min_pages max_pages = none := by
    unfold MmapEventFiles
    cases mmapLoop mmapOk min_pages max_pages <;> simp
  refine ⟨?_, min_mem_mmapSizeChain min_pages max_pages hle, ?_, ?_⟩
  · rw [hiff]
    exact mmapLoop_none_iff mmapOk min_pages max_pages
  · intro hf
    exact (mmapLoop_none_iff mmapOk min_pages max_pages).mp (hiff.mp hf)
      min_pages (min_mem_mmapSizeChain min_pages max_pages hle)
  · intro p hp
    obtain ⟨ha, hb, hc⟩ := mmapLoop_some_spec mmapOk min_pages max_pages p hp
    exact ⟨ha, hb hle, hc⟩

/-- Allocation probe used in the closed instantiation of C4: only a
2-page buffer maps. -/
def mmapOkDemo : Nat → Bool := fun p => decide (p = 2)

/-- Closed instantiation of C4: with min 1 and max 8 the loop degrades
8 → 4 → 2 and succeeds at the intermediate size 2. -/
theorem mmap_event_files_halves_down_to_min_witness :
    mmapOkDemo 2 = true ∧ 1 ≤ 2 ∧ 2 ≤ 8 :=
  (mmap_event_files_halves_down_to_min mmapOkDemo 1 8 (by decide)).2.2.2 2
    (by simp [mmapLoop, mmapOkDemo])

/-- Opaque decoded sample record (source `Record`, produced by the
external raw-byte decoder). -/
structure Record where
  payload : Nat
deriving DecidableEq, Repr

/-- Modelled from the spec: the delivery loop of
`ReadMmapEventDataForFd` (implementation file absent) — the records
decoded from one handle's ring buffer, in the order their bytes were
written, are passed one by one to the registered callback; as soon as
the callback returns false delivery stops, no further record being
passed during that drain.  Returns the records actually passed to the
callback. -/
def deliverRecords (callback : Record → Bool) : List Record → List Record
  | [] => []
  | r :: rs => if callback r then r :: deliverRecords callback rs else [r]

theorem deliverRecords_as_take (callback : Record → Bool) :
    ∀ rs : List Record,
      deliverRecords callback rs = rs.take (deliverRecords callback rs).length := by
  intro rs
  induction rs with
  | nil => rfl
  | cons r rest ih =>
    by_cases hr : callback r = true
    · simp only [deliverRecords, if_pos hr, List.length_cons, List.take_succ_cons]
      exact congrArg (List.cons r) ih
    · simp [deliverRecords, if_neg hr]

theorem deliverRecords_all (callback : Record → Bool) :
    ∀ rs : List Record, (∀ r ∈ rs, callback r = true) →
      deliverRecords callback rs = rs := by
  intro rs
  induction rs with
  | nil => intro _; rfl
  | cons r rest ih =>
    intro hall
    have hr : callback r = true := hall r (List.mem_cons_self r rest)
    simp only [deliverRecords, if_pos hr]
    rw [ih fun x hx => hall x (List.mem_cons_of_mem r hx)]

theorem deliverRecords_stop (callback : Record → Bool) :
    ∀ (rs : List Record) (i : Nat) (r : Record),
      (deliverRecords callback rs)[i]? = some r → callback r = false →
      (deliverRecords callback rs).length = i + 1 := by
  intro rs
  induction rs with
  | nil =>
    intro i r hget
    simp [deliverRecords] at hget
  | cons a rest ih =>
    intro i r hget hfalse
    by_cases hr : callback a = true
    · simp only [deliverRecords, if_pos hr] at hget ⊢
      cases i with
      | zero =>
        simp only [List.getElem?_cons_zero, Option.some_inj] at hget
        subst hget
        rw [hfalse] at hr
        cases hr
      | succ i =>
        simp only [List.getElem?_cons_succ] at hget
        have hlen := ih i r hget hfalse
        simp only [List.length_cons, hlen]
    · simp only [deliverRecords, if_neg hr] at hget ⊢
      cases i with
      | zero => rfl
      | succ i => simp at hget

/-- C5: draining one handle's ring buffer delivers the decoded records
to the registered callback in the order their bytes were written (the
delivered list is always an initial run of the buffer, the whole
buffer when the callback accepts every record), and delivery is
cancelled immediately once the callback returns false: a vetoed record
is the last one passed during that drain. -/
theorem read_mmap_event_data_order_and_cancel (callback : Record → Bool)
    (rs : List Record) :
    deliverRecords callback rs = rs.take (deliverRecords callback rs).length ∧
    ((∀ r ∈ rs, callback r = true) → deliverRecords callback rs = rs) ∧
    (∀ i : Nat, ∀ h : i < (deliverRecords callback rs).length,
      callback ((deliverRecords callback rs).get ⟨i, h⟩) = false →
      (deliverRecords callback rs).length = i + 1) :=
  ⟨deliverRecords_as_take callback rs, deliverRecords_all callback rs,
   fun i h hf =>
     deliverRecords_stop callback rs i ((deliverRecords callback rs).get ⟨i, h⟩)
       (by rw [List.get_eq_getElem]; exact List.getElem?_eq_getElem h) hf⟩

/-- Callback for the closed instantiation of C5: accepts records with
payload below 2, vetoes the rest. -/
def callbackDemo : Record → Bool := fun r => decide (r.payload < 2)

/-- Closed instantiation of C5: an all-accepted buffer is delivered
whole, and a veto at the second record stops delivery there. -/
theorem read_mmap_event_data_order_and_cancel_witness :
    deliverRecords callbackDemo [⟨0⟩, ⟨1⟩] = [⟨0⟩, ⟨1⟩] ∧
    (deliverRecords callbackDemo [⟨0⟩, ⟨5⟩, ⟨1⟩]).length = 1 + 1 := by
  constructor
  · exact (read_mmap_event_data_order_and_cancel callbackDemo [⟨0⟩, ⟨1⟩]).2.1
      (by decide)
  · exact (read_mmap_event_data_order_and_cancel callbackDemo
      [⟨0⟩, ⟨5⟩, ⟨1⟩]).2.2 1 (by decide) (by decide)

/-- Bitwise union of the sample-record field masks of a group's
members, accumulated the way the per-group loop of `UnionSampleType`
does. -/
def groupSampleTypeUnion (g : EventSelectionGroup) : Nat :=
  g.foldl (fun acc sel => acc ||| sel.event_attr.sample_type) 0

/-- Modelled from the spec: `UnionSampleType` (implementation file
absent) — within each group, replaces every member's requested
sample-record field mask by the bitwise union of all members' masks,
since grouped kernel events share one record format per group. -/
def UnionSampleType (s : EventSelectionSet) : EventSelectionSet :=
  { s with groups := s.groups.map fun g => g.map fun sel =>
      { sel with event_attr :=
          { sel.event_attr with sample_type := groupSampleTypeUnion g } } }

theorem testBit_foldl_lor (b : Nat) :
    ∀ (g : List EventSelection) (acc : Nat),
      ((g.foldl (fun a sel => a ||| sel.event_attr.sample_type) acc).testBit b
          = true) ↔
      (acc.testBit b = true ∨
        ∃ sel ∈ g, sel.event_attr.sample_type.testBit b = true) := by
  intro g
  induction g with
  | nil => intro acc; simp
  | cons sel rest ih =>
    intro acc
    simp only [List.foldl_cons]
    rw [ih, Nat.testBit_lor]
    simp only [Bool.or_eq_true, List.exists_mem_cons_iff]
    tauto

theorem testBit_groupSampleTypeUnion (g : EventSelectionGroup) (b : Nat) :
    ((groupSampleTypeUnion g).testBit b = true) ↔
      ∃ sel ∈ g, sel.event_attr.sample_type.testBit b = true := by
  rw [groupSampleTypeUnion, testBit_foldl_lor]
  simp

/-- C6: the per-group sample-type value computed by `UnionSampleType`
is exactly the bitwise OR of every member's individually requested
sample-record field mask: each member ends with the same mask, a bit
is set in it precisely when some member of the original group
requested it, and every member's original mask is absorbed by it (no
requested field is dropped). -/
theorem union_sample_type_is_bitwise_or (s : EventSelectionSet) (gi : Nat)
    (g g' : EventSelectionGroup)
    (hg : s.groups[gi]? = some g)
    (hg' : (UnionSampleType s).groups[gi]? = some g') :
    g'.length = g.length ∧
    (∀ sel' ∈ g', sel'.event_attr.sample_type = groupSampleTypeUnion g) ∧
    (∀ sel' ∈ g', ∀ b : Nat,
        (sel'.event_attr.sample_type.testBit b = true) ↔
          ∃ sel ∈ g, sel.event_attr.sample_type.testBit b = true) ∧
    (∀ sel ∈ g, ∀ sel' ∈ g',
        sel.event_attr.sample_type ||| sel'.event_attr.sample_type =
          sel'.event_attr.sample_type) := by
  have hmap : g' = g.map fun sel =>
      { sel with event_attr :=
          { sel.event_attr with sample_type := groupSampleTypeUnion g } } := by
    simp only [UnionSampleType, List.getElem?_map, hg, Option.map_some'] at hg'
    exact (Option.some_inj.mp hg').symm
  have hval : ∀ sel' ∈ g', sel'.event_attr.sample_type = groupSampleTypeUnion g := by
    intro sel' hsel'
    rw [hmap] at hsel'
    rcases List.mem_map.mp hsel' with ⟨sel, _, rfl⟩
    rfl
  refine ⟨?_, hval, ?_, ?_⟩
  · rw [hmap, List.length_map]
  · intro sel' hsel' b
    rw [hval sel' hsel']
    exact testBit_groupSampleTypeUnion g b
  · intro sel hsel sel' hsel'
    rw [hval sel' hsel']
    apply Nat.eq_of_testBit_eq
    intro b
    rw [Nat.testBit_lor]
    cases hx : sel.event_attr.sample_type.testBit b with
    | false => simp
    | true =>
      have : (groupSampleTypeUnion g).testBit b = true :=
        (testBit_groupSampleTypeUnion g b).mpr ⟨sel, hsel, hx⟩
      simp [this]

/-- Set with one two-member group (masks 1 and 2), for the closed
instantiation of C6. -/
def sDemo6 : EventSelectionSet :=
  (AddEventGroup resolveDemo (EventSelectionSet.mk0 true)
    ["cpu-cycles", "instructions"]).2

/-- The group of `sDemo6`. -/
def gDemo6 : EventSelectionGroup := (sDemo6.groups[0]?).getD []

/-- The group of `sDemo6` after `UnionSampleType`. -/
def gDemo6' : EventSelectionGroup := ((UnionSampleType sDemo6).groups[0]?).getD []

/-- Closed instantiation of C6 on a group with masks 1 and 2. -/
theorem union_sample_type_is_bitwise_or_witness :
    gDemo6'.length = gDemo6.length ∧
    ∀ sel' ∈ gDemo6', sel'.event_attr.sample_type = groupSampleTypeUnion gDemo6 := by
  obtain ⟨h1, h2, -, -⟩ := union_sample_type_is_bitwise_or sDemo6 0 gDemo6 gDemo6'
    (by decide) (by decide)
  exact ⟨h1, h2⟩

/-- Modelled from the spec: `SetBranchSampling(branch_sample_type)`
(implementation file absent) — the requested branch filter combination
is first checked against the kernel/hardware capability probe
(`IsBranchSamplingSupported`, modelled by the oracle
`branchSupported`); an unsupported combination makes the call return
false without touching any selection, otherwise the filter is recorded
in every selection's attribute. -/
def SetBranchSampling (branchSupported : Nat → Bool)
    (s : EventSelectionSet) (branch_sample_type : Nat) :
    Bool × EventSelectionSet :=
  if branchSupported branch_sample_type = true then
    (true, { s with groups := s.groups.map (List.map fun sel =>
        { sel with event_attr :=
            { sel.event_attr with branch_sample_type := branch_sample_type } }) })
  else (false, s)

/-- C7: with a branch-sample flag combination the capability probe
reports unsupported, `SetBranchSampling` returns false and leaves the
`event_attr` of every selection in the set unchanged (indeed the whole
state is returned untouched). -/
theorem set_branch_sampling_unsupported_unchanged
    (branchSupported : Nat → Bool) (s : EventSelectionSet) (flags : Nat)
    (hun : branchSupported flags = false) :
    (SetBranchSampling branchSupported s flags).1 = false ∧
    (SetBranchSampling branchSupported s flags).2 = s ∧
    ∀ gi si : Nat,
      ((SetBranchSampling branchSupported s flags).2.groups[gi]?.bind
          fun g => g[si]?.map (·.event_attr)) =
        (s.groups[gi]?.bind fun g => g[si]?.map (·.event_attr)) := by
  have hn : ¬ branchSupported flags = true := by simp [hun]
  refine ⟨?_, ?_, ?_⟩ <;> simp [SetBranchSampling, hn]

/-- Capability probe for the closed instantiation of C7: only the
empty filter combination is supported. -/
def branchSupportedDemo : Nat → Bool := fun flags => decide (flags = 0)

/-- Set with one selection, for the closed instantiation of C7. -/
def sDemo7 : EventSelectionSet :=
  (AddEventType resolveDemo (EventSelectionSet.mk0 false) "instructions").2

/-- Closed instantiation of C7 at the unsupported combination 7. -/
theorem set_branch_sampling_unsupported_unchanged_witness :
    (SetBranchSampling branchSupportedDemo sDemo7 7).1 = false ∧
    (SetBranchSampling branchSupportedDemo sDemo7 7).2 = sDemo7 ∧
    ∀ gi si : Nat,
      ((SetBranchSampling branchSupportedDemo sDemo7 7).2.groups[gi]?.bind
          fun g => g[si]?.map (·.event_attr)) =
        (sDemo7.groups[gi]?.bind fun g => g[si]?.map (·.event_attr)) :=
  set_branch_sampling_unsupported_unchanged branchSupportedDemo sDemo7 7
    (by decide)

/-- Snapshot of one handle's aggregated counter value, attributed to
its thread and cpu. -/
def snapshotOf (fd : EventFd) : CounterInfo :=
  { tid := fd.tid, cpu := fd.cpu, counter := fd.count }

/-- Modelled from the spec: the external counter-handle read boundary
(`readCount() -> Counter | ReadError`) — yields the aggregated value,
failing when the read syscall fails. -/
def ReadCounter (fd : EventFd) : Option CounterInfo :=
  if fd.readOk = true then some (snapshotOf fd) else none

/-- Action on one handle during cpu-offline handling. -/
inductive HotplugAction where
  | drainFd (fd : EventFd)
  | readFd (fd : EventFd)
  | closeFd (fd : EventFd)
deriving DecidableEq, Repr

/-- Handles attached to the given cpu across all selections, in
selection order. -/
def fdsOnCpu (s : EventSelectionSet) (cpu : Int) : List EventFd :=
  s.groups.flatten.flatMap fun sel =>
    sel.event_fds.filter fun fd => decide (fd.cpu = cpu)

/-- Modelled from the spec: the per-selection state effect of
`HandleCpuOfflineEvent(cpu)` (implementation file absent) — the
handles of the offlined cpu are removed from `event_fds` and their
counters, read one last time, are saved into `hotplugged_counters`
(best effort: a handle whose read fails is skipped). -/
def offlineSelection (cpu : Int) (sel : EventSelection) : EventSelection :=
  { sel with
    event_fds := sel.event_fds.filter fun fd => !decide (fd.cpu = cpu)
    hotplugged_counters := sel.hotplugged_counters ++
      (sel.event_fds.filter fun fd => decide (fd.cpu = cpu)).filterMap
        ReadCounter }

/-- Trace of the actions `HandleCpuOfflineEvent` performs on the
offlined cpu's handles: all drains, then all counter reads, then all
closes. -/
def offlineTraceOf (fds : List EventFd) : List HotplugAction :=
  fds.map HotplugAction.drainFd ++ fds.map HotplugAction.readFd ++
    fds.map HotplugAction.closeFd

/-- Modelled from the spec: `HandleCpuOfflineEvent(cpu)` — first
drains pending ring-buffer data of the offlined cpu's handles through
the registered callback, then reads and saves their aggregated
counters into `hotplugged_counters`, and only then closes and
deregisters them.  Returns the new state and the trace of actions
performed on those handles. -/
def HandleCpuOfflineEvent (cpu : Int) (s : EventSelectionSet) :
    EventSelectionSet × List HotplugAction :=
  ({ s with groups := s.groups.map (List.map (offlineSelection cpu)) },
   offlineTraceOf (fdsOnCpu s cpu))

theorem getElem?_map_eq_some {α β : Type} (f : α → β) (l : List α) (m : Nat)
    (x : β) (h : (l.map f)[m]? = some x) : ∃ a, l[m]? = some a ∧ x = f a := by
  rw [List.getElem?_map] at h
  rcases Option.map_eq_some'.mp h with ⟨a, ha, hfa⟩
  exact ⟨a, ha, hfa.symm⟩

theorem offlineTraceOf_close_ge (fds : List EventFd) (j : Nat) (fd' : EventFd)
    (h : (offlineTraceOf fds)[j]? = some (HotplugAction.closeFd fd')) :
    fds.length + fds.length ≤ j := by
  by_contra hcon
  have hj : j < (fds.map HotplugAction.drainFd ++
      fds.map HotplugAction.readFd).length := by
    simp only [List.length_append, List.length_map]
    omega
  rw [offlineTraceOf, List.getElem?_append_left hj] at h
  rcases Nat.lt_or_ge j fds.length with hjd | hjd
  · have hjd' : j < (fds.map HotplugAction.drainFd).length := by
      simpa using hjd
    rw [List.getElem?_append_left hjd'] at h
    rcases getElem?_map_eq_some _ _ _ _ h with ⟨a, -, ha⟩
    cases ha
  · have hjd' : (fds.map HotplugAction.drainFd).length ≤ j := by
      simpa using hjd
    rw [List.getElem?_append_right hjd'] at h
    rcases getElem?_map_eq_some _ _ _ _ h with ⟨a, -, ha⟩
    cases ha

theorem offlineTraceOf_drain_read_lt (fds : List EventFd) (i : Nat)
    (fd : EventFd)
    (h : (offlineTraceOf fds)[i]? = some (HotplugAction.drainFd fd) ∨
      (offlineTraceOf fds)[i]? = some (HotplugAction.readFd fd)) :
    i < fds.length + fds.length := by
  by_contra hcon
  have hge : (fds.map HotplugAction.drainFd ++
      fds.map HotplugAction.readFd).length ≤ i := by
    simp only [List.length_append, List.length_map]
    omega
  rcases h with h | h <;>
    rw [offlineTraceOf, List.getElem?_append_right hge] at h <;>
    rcases getElem?_map_eq_some _ _ _ _ h with ⟨a, -, ha⟩ <;>
    cases ha

theorem offlineTraceOf_indices (fds : List EventFd) (k0 : Nat) (fd : EventFd)
    (h : fds[k0]? = some fd) :
    (offlineTraceOf fds)[k0]? = some (HotplugAction.drainFd fd) ∧
    (offlineTraceOf fds)[fds.length + k0]? = some (HotplugAction.readFd fd) ∧
    (offlineTraceOf fds)[fds.length + fds.length + k0]? =
      some (HotplugAction.closeFd fd) := by
  have hk : k0 < fds.length := by
    rcases List.getElem?_eq_some.mp h with ⟨hlt, -⟩
    exact hlt
  refine ⟨?_, ?_, ?_⟩
  · have h1 : k0 < (fds.map HotplugAction.drainFd ++
        fds.map HotplugAction.readFd).length := by
      simp only [List.length_append, List.length_map]; omega
    have h2 : k0 < (fds.map HotplugAction.drainFd).length := by simpa using hk
    rw [offlineTraceOf, List.getElem?_append_left h1,
      List.getElem?_append_left h2, List.getElem?_map, h]
    rfl
  · have h1 : fds.length + k0 < (fds.map HotplugAction.drainFd ++
        fds.map HotplugAction.readFd).length := by
      simp only [List.length_append, List.length_map]; omega
    have h2 : (fds.map HotplugAction.drainFd).length ≤ fds.length + k0 := by
      simp only [List.length_map]; omega
    rw [offlineTraceOf, List.getElem?_append_left h1,
      List.getElem?_append_right h2]
    have h3 : fds.length + k0 - (fds.map HotplugAction.drainFd).length = k0 := by
      simp only [List.length_map]; omega
    rw [h3, List.getElem?_map, h]
    rfl
  · have h1 : (fds.map HotplugAction.drainFd ++
        fds.map HotplugAction.readFd).length ≤
        fds.length + fds.length + k0 := by
      simp only [List.length_append, List.length_map]; omega
    rw [offlineTraceOf, List.getElem?_append_right h1]
    have h2 : fds.length + fds.length + k0 -
        (fds.map HotplugAction.drainFd ++
          fds.map HotplugAction.readFd).length = k0 := by
      simp only [List.length_append, List.length_map]; omega
    rw [h2, List.getElem?_map, h]
    rfl

/-- C8: `HandleCpuOfflineEvent` performs, for the offlined cpu's
handles, all ring-buffer drains first, then all counter reads/saves,
and only then the closes: in its action trace every drain or read
precedes every close, and each handle of that cpu has a drain, then a
read, then a close — so no handle is closed before its buffer has been
drained and its counter snapshotted. -/
theorem handle_cpu_offline_drain_read_before_close
    (s : EventSelectionSet) (cpu : Int) :
    (∀ i j : Nat, ∀ fd fd' : EventFd,
      (((HandleCpuOfflineEvent cpu s).2)[i]? =
          some (HotplugAction.drainFd fd) ∨
        ((HandleCpuOfflineEvent cpu s).2)[i]? =
          some (HotplugAction.readFd fd)) →
      ((HandleCpuOfflineEvent cpu s).2)[j]? =
        some (HotplugAction.closeFd fd') →
      i < j) ∧
    (∀ fd ∈ fdsOnCpu s cpu, ∃ i j k : Nat, i < j ∧ j < k ∧
      ((HandleCpuOfflineEvent cpu s).2)[i]? =
        some (HotplugAction.drainFd fd) ∧
      ((HandleCpuOfflineEvent cpu s).2)[j]? =
        some (HotplugAction.readFd fd) ∧
      ((HandleCpuOfflineEvent cpu s).2)[k]? =
        some (HotplugAction.closeFd fd)) := by
  have htr : (HandleCpuOfflineEvent cpu s).2 =
      offlineTraceOf (fdsOnCpu s cpu) := rfl
  constructor
  · intro i j fd fd' hi hj
    rw [htr] at hi hj
    have h1 := offlineTraceOf_drain_read_lt (fdsOnCpu s cpu) i fd hi
    have h2 := offlineTraceOf_close_ge (fdsOnCpu s cpu) j fd' hj
    omega
  · intro fd hfd
    rcases List.mem_iff_get.mp hfd with ⟨⟨k0, hk0⟩, hget⟩
    have hsome : (fdsOnCpu s cpu)[k0]? = some fd := by
      rw [List.getElem?_eq_getElem hk0]
      rw [← hget]
      rfl
    obtain ⟨ha, hb, hc⟩ := offlineTraceOf_indices (fdsOnCpu s cpu) k0 fd hsome
    refine ⟨k0, (fdsOnCpu s cpu).length + k0,
      (fdsOnCpu s cpu).length + (fdsOnCpu s cpu).length + k0,
      by omega, by omega, ?_, ?_, ?_⟩ <;> rw [htr]
    · exact ha
    · exact hb
    · exact hc

/-- Set with one selection owning one handle on cpu 0 and one on
cpu 1, for the closed instantiations of C8 and C3. -/
def sDemoHot : EventSelectionSet :=
  { for_stat_cmd := true
    groups := [[{ group_id := 0
                  selection_id := 0
                  event_type_modifier :=
                    { name := "cpu-cycles", default_sample_type := 1 }
                  event_attr := { sample_type := 1, branch_sample_type := 0 }
                  event_fds :=
                    [{ tid := 10, cpu := 0, count := 5, readOk := true },
                     { tid := 10, cpu := 1, count := 7, readOk := true }]
                  hotplugged_counters := [] }]]
    processes := ∅
    threads := ∅
    next_selection_id := 1 }

/-- The handle of `sDemoHot` on cpu 0. -/
def fdDemoHot : EventFd := { tid := 10, cpu := 0, count := 5, readOk := true }

/-- Closed instantiation of C8: in the trace for offlining cpu 0 the
drain at position 0 precedes the close at position 2, and the cpu-0
handle has its drain, read and close in order. -/
theorem handle_cpu_offline_drain_read_before_close_witness :
    (0 : Nat) < 2 ∧
    ∃ i j k : Nat, i < j ∧ j < k ∧
      ((HandleCpuOfflineEvent 0 sDemoHot).2)[i]? =
        some (HotplugAction.drainFd fdDemoHot) ∧
      ((HandleCpuOfflineEvent 0 sDemoHot).2)[j]? =
        some (HotplugAction.readFd fdDemoHot) ∧
      ((HandleCpuOfflineEvent 0 sDemoHot).2)[k]? =
        some (HotplugAction.closeFd fdDemoHot) := by
  constructor
  · exact (handle_cpu_offline_drain_read_before_close sDemoHot 0).1 0 2
      fdDemoHot fdDemoHot (Or.inl (by decide)) (by decide)
  · exact (handle_cpu_offline_drain_read_before_close sDemoHot 0).2
      fdDemoHot (by decide)

/-- Reads of all still-open handles of one selection, in order;
`none` as soon as one read fails. -/
def readAllCounters : List EventFd → Option (List CounterInfo)
  | [] => some []
  | fd :: fds =>
    match ReadCounter fd with
    | none => none
    | some c => (readAllCounters fds).map (c :: ·)

/-- Modelled from the spec: the per-selection loop of
`ReadCounters(counters)` (implementation file absent) — for each
selection in set order, reads every still-open handle, appends the
snapshots saved from hotplug-closed handles, and produces one
`CountersInfo` whose selection reference is the selection the
counters were read from; fails only when a read on a still-open
handle fails. -/
def readSelectionList : List EventSelection → Option (List CountersInfo)
  | [] => some []
  | sel :: rest =>
    match readAllCounters sel.event_fds with
    | none => none
    | some cs =>
      (readSelectionList rest).map
        (fun l =>
          { selection := sel
            counters := cs ++ sel.hotplugged_counters } :: l)

/-- Modelled from the spec: `ReadCounters` over all selections of the
set. -/
def ReadCounters (s : EventSelectionSet) : Option (List CountersInfo) :=
  readSelectionList s.groups.flatten

theorem readAllCounters_of_ok (fds : List EventFd)
    (h : ∀ fd ∈ fds, fd.readOk = true) :
    readAllCounters fds = some (fds.map snapshotOf) := by
  induction fds with
  | nil => rfl
  | cons fd rest ih =>
    have h1 : fd.readOk = true := h fd (List.mem_cons_self fd rest)
    have h2 := ih fun x hx => h x (List.mem_cons_of_mem fd hx)
    simp only [readAllCounters, ReadCounter, h1, if_true, h2, Option.map_some',
      List.map_cons]

theorem filterMap_readCounter_of_ok (fds : List EventFd)
    (h : ∀ fd ∈ fds, fd.readOk = true) :
    fds.filterMap ReadCounter = fds.map snapshotOf := by
  induction fds with
  | nil => rfl
  | cons fd rest ih =>
    have h1 : fd.readOk = true := h fd (List.mem_cons_self fd rest)
    have h2 := ih fun x hx => h x (List.mem_cons_of_mem fd hx)
    simp only [List.filterMap_cons, ReadCounter, h1, if_true, h2, List.map_cons]

theorem readSelectionList_of_ok (sels : List EventSelection)
    (h : ∀ sel ∈ sels, ∀ fd ∈ sel.event_fds, fd.readOk = true) :
    readSelectionList sels = some (sels.map fun sel =>
      { selection := sel
        counters := sel.event_fds.map snapshotOf ++ sel.hotplugged_counters }) := by
  induction sels with
  | nil => rfl
  | cons sel rest ih =>
    have h1 := readAllCounters_of_ok sel.event_fds
      (h sel (List.mem_cons_self sel rest))
    have h2 := ih fun x hx fd hfd => h x (List.mem_cons_of_mem sel hx) fd hfd
    simp only [readSelectionList, h1, h2, Option.map_some', List.map_cons]

theorem flatten_map_map {α β : Type} (f : α → β) :
    ∀ l : List (List α), (l.map (List.map f)).flatten = l.flatten.map f := by
  intro l
  exact (List.map_flatten f l).symm

/-- C3: after the handles of an offlined cpu have been closed by the
hotplug handler, `ReadCounters` still succeeds — the closed handles
are not treated as an error: provided the reads on the still-open
handles succeed, each selection yields one `CountersInfo` whose
selection reference is the selection it was read from, containing the
still-open handles' current values together with the saved
`hotplugged_counters` snapshots, so the pre-offline aggregated values
of the offlined cpu's handles are still returned. -/
theorem read_counters_after_cpu_offline (s : EventSelectionSet) (cpu : Int)
    (hok : ∀ sel ∈ s.groups.flatten, ∀ fd ∈ sel.event_fds, fd.readOk = true) :
    ∃ l : List CountersInfo,
      ReadCounters (HandleCpuOfflineEvent cpu s).1 = some l ∧
      l.length = s.groups.flatten.length ∧
      ∀ i : Nat, ∀ sel, s.groups.flatten[i]? = some sel →
        l[i]? = some
          { selection := offlineSelection cpu sel
            counters :=
              (sel.event_fds.filter fun fd => !decide (fd.cpu = cpu)).map
                  snapshotOf ++
                (sel.hotplugged_counters ++
                  (sel.event_fds.filter fun fd => decide (fd.cpu = cpu)).map
                    snapshotOf) } := by
  have hflat : (HandleCpuOfflineEvent cpu s).1.groups.flatten =
      s.groups.flatten.map (offlineSelection cpu) := by
    show (s.groups.map (List.map (offlineSelection cpu))).flatten = _
    exact flatten_map_map (offlineSelection cpu) s.groups
  have hok' : ∀ sel' ∈ s.groups.flatten.map (offlineSelection cpu),
      ∀ fd ∈ sel'.event_fds, fd.readOk = true := by
    intro sel' hsel' fd hfd
    rcases List.mem_map.mp hsel' with ⟨sel, hsel, rfl⟩
    have hfd' : fd ∈ sel.event_fds :=
      List.mem_of_mem_filter hfd
    exact hok sel hsel fd hfd'
  refine ⟨(s.groups.flatten.map (offlineSelection cpu)).map fun sel' =>
    { selection := sel'
      counters := sel'.event_fds.map snapshotOf ++ sel'.hotplugged_counters },
    ?_, ?_, ?_⟩
  · rw [ReadCounters, hflat]
    exact readSelectionList_of_ok _ hok'
  · rw [List.length_map, List.length_map]
  · intro i sel hsel
    rw [List.getElem?_map, List.getElem?_map, hsel, Option.map_some',
      Option.map_some']
    have hmem : sel ∈ s.groups.flatten := by
      rcases List.getElem?_eq_some.mp hsel with ⟨hlt, hv⟩
      exact hv ▸ List.getElem_mem hlt
    have hfil : ∀ fd ∈ sel.event_fds.filter fun fd => decide (fd.cpu = cpu),
        fd.readOk = true := by
      intro fd hfd
      exact hok sel hmem fd (List.mem_of_mem_filter hfd)
    simp only [offlineSelection, filterMap_readCounter_of_ok _ hfil]

/-- Closed instantiation of C3: `ReadCounters` succeeds on `sDemoHot`
after cpu 0 has been offlined. -/
theorem read_counters_after_cpu_offline_witness :
    (ReadCounters (HandleCpuOfflineEvent 0 sDemoHot).1).isSome = true := by
  obtain ⟨l, hl, -, -⟩ := read_counters_after_cpu_offline sDemoHot 0 (by decide)
  rw [hl]
  rfl

/-- C10: the monitored-target accessors obey set-union semantics:
adding a pid set unions it into the stored set, repeating the same
addition is idempotent, `HasMonitoredTarget` is true exactly when one
of the two monitored sets is non-empty, and it is false on a freshly
constructed set. -/
theorem monitored_target_set_union_semantics
    (s : EventSelectionSet) (S : Finset Int) (b : Bool) :
    GetMonitoredProcesses (AddMonitoredProcesses s S)
        = GetMonitoredProcesses s ∪ S ∧
    GetMonitoredThreads (AddMonitoredThreads s S)
        = GetMonitoredThreads s ∪ S ∧
    AddMonitoredProcesses (AddMonitoredProcesses s S) S
        = AddMonitoredProcesses s S ∧
    AddMonitoredThreads (AddMonitoredThreads s S) S
        = AddMonitoredThreads s S ∧
    (HasMonitoredTarget s = true ↔
        GetMonitoredProcesses s ≠ ∅ ∨ GetMonitoredThreads s ≠ ∅) ∧
    HasMonitoredTarget (EventSelectionSet.mk0 b) = false := by
  refine ⟨rfl, rfl, ?_, ?_, ?_, ?_⟩
  · simp [AddMonitoredProcesses, Finset.union_assoc]
  · simp [AddMonitoredThreads, Finset.union_assoc]
  · simp [HasMonitoredTarget, GetMonitoredProcesses, GetMonitoredThreads]
  · simp [HasMonitoredTarget, EventSelectionSet.mk0]

end EventSelectionSetSpec
